import Mathlib

/-!
Shallow embedding of `neo/io/kwikio.py` (class `KwikIO`): the four read
operations `read_segment`, `read_analogsignal`, `read_stimulus` and
`read_spiketrain`, together with the record types they populate.

Modelling conventions:
* Machine floats become rationals (`ℚ`); physical-unit tags (`pq.V`,
  `pq.s`, `pq.ms`, `pq.Hz`, `pq.mV`) are out-of-scope collaborators and
  are recorded only in comments or as plain string fields.
* The two `h5py.File` handles are out-of-scope collaborators; the raw
  container `basename + ".raw.kwd"` is modelled as `KwdFile`, a list of
  recordings each carrying the attribute set and the 2-D `data` array
  (a list of rows).  `kwd["recordings"][str(dataset)]` becomes a
  `List.get?` lookup, a missing key becoming `PyErr.keyError`.
* Process-wide Python state is an explicit `PyEnv` record: the
  `HAVE_SCIPY` flag set by the guarded `from scipy import stats` import,
  the global name `timevect` (free in the module, so possibly unbound:
  `Option`), and `stats.nct.pdf (·, 5, 20)` as an abstract function.
* `np.random.rand` / `np.random.randn` draws are modelled as explicit
  streams `ℕ → ℚ` handed to each call, one draw per index in the order
  the source consumes them.
* Fallible Python code returns `Except PyErr`.
-/

namespace KwikIO

/-- Python exceptions that the embedded code can raise: `KeyError`
(missing group/dataset), `IndexError` (out-of-range array index),
`NameError` (unbound global name), `ValueError` (`.max()` of an empty
array), and the re-raised scipy `ImportError` (`SCIPY_ERR`). -/
inductive PyErr where
  | keyError
  | indexError
  | nameError
  | valueError
  | importError
deriving DecidableEq

instance {α : Type} [DecidableEq α] : DecidableEq (Except PyErr α) := fun x y =>
  match x, y with
  | .error a, .error b =>
    if h : a = b then .isTrue (congrArg Except.error h)
    else .isFalse fun hh => h (Except.error.inj hh)
  | .error _, .ok _ => .isFalse fun hh => Except.noConfusion hh
  | .ok _, .error _ => .isFalse fun hh => Except.noConfusion hh
  | .ok a, .ok b =>
    if h : a = b then .isTrue (congrArg Except.ok h)
    else .isFalse fun hh => h (Except.ok.inj hh)

/-- Attribute set of `kwd["recordings"][str(dataset)]` (kwikio.py line 133):
`sample_rate`, `start_time` and the total sample count `shape` (used as a
scalar in `np.arange(0, attrs["shape"])`, line 159). -/
structure RecAttrs where
  sample_rate : ℚ
  start_time : ℚ
  shape : ℕ
deriving DecidableEq

/-- One entry of the raw container's `recordings` group: its attribute set
and its 2-D `data` array, modelled as a list of rows (numpy guarantees the
rows of a 2-D array are all of equal length; `data[i]` is row `i`). -/
structure Recording where
  attrs : RecAttrs
  data : List (List ℚ)
deriving DecidableEq

/-- The opened `basename + ".raw.kwd"` container (kwikio.py line 131). -/
structure KwdFile where
  recordings : List Recording
deriving DecidableEq

/-- `data.shape[1]` of a 2-D numpy array = the common row length
(kwikio.py line 132 reads the channel count from dimension 1). -/
def Recording.numChannels (r : Recording) : ℕ := (r.data.headD []).length

/-- Process-wide Python state the module reads: `HAVE_SCIPY` (lines
29-36), the global name `timevect` (free in the module, line 212 —
`none` models the unbound name), and `stats.nct.pdf (·, 5, 20)` (lines
262-263) as an abstract real-valued density. -/
structure PyEnv where
  haveScipy : Bool
  timevect : Option (List ℚ)
  nctPdf : ℚ → ℚ

/-- The fields of `neo.core.AnalogSignal` that `read_analogsignal`
populates; `lazy_shape` is the extra attribute set only on the lazy
branch (line 186).  Sampling rate is in Hz, `t_start` in seconds. -/
structure AnalogSignalM where
  data : List ℚ
  units : String
  sampling_rate : ℚ
  t_start : ℚ
  channel_index : ℕ
  lazy_shape : Option ℕ
deriving DecidableEq

/-- The fields of `neo.core.SpikeTrain` that `read_spiketrain` populates.
`waveforms`, `sampling_rate` and `left_sweep` are set only on the eager
branch (lines 267-274), `lazy_shape` only on the lazy branch (line 257);
`channel_index` is the annotation added on line 277. -/
structure SpikeTrainM where
  times : List ℚ
  t_start : ℚ
  t_stop : ℚ
  lazy_shape : Option ℕ
  waveforms : Option (List (List (List ℚ)))
  sampling_rate : Option ℚ
  left_sweep : Option ℚ
  channel_index : ℕ
deriving DecidableEq

/-- The fields of `neo.core.EpochArray` that `read_stimulus` populates:
three parallel sequences (onset times in s, durations in ms, labels). -/
structure EpochArrayM where
  times : List ℚ
  durations : List ℚ
  labels : List String
deriving DecidableEq

/-- The fields of `neo.core.Segment` that `read_segment` populates.
`duration` is `none` until line 162 assigns it (cascade branch only);
`create_many_to_one_relationship` only wires parent back-references,
which are out of scope of the data model here. -/
structure SegmentM where
  analogsignals : List AnalogSignalM
  spiketrains : List SpikeTrainM
  epocharrays : List EpochArrayM
  duration : Option ℚ
deriving DecidableEq

/-- Python's built-in `max` over a numpy 1-D array / list; the `[]` case
is unreachable in the source (Python raises there, callers guard it). -/
def pymax : List ℚ → ℚ
  | [] => 0
  | x :: xs => xs.foldl max x

/-- `np.arange(start, stop, step)` on natural arguments, cast to ℚ:
`(stop - start + step - 1) / step` evenly spaced points from `start`. -/
def arangeN (start stop step : ℕ) : List ℚ :=
  (List.range ((stop - start + step - 1) / step)).map fun k =>
    ((start + step * k : ℕ) : ℚ)

/-- Lines 262-264: the un-normalized spike template
`w = np.r_[w1, w2]` with `w1 = -nct.pdf(arange(11,60,4), 5, 20)[::-1]/3`
and `w2 = nct.pdf(arange(11,60,2), 5, 20)`. -/
def templateRaw (pdf : ℚ → ℚ) : List ℚ :=
  ((((arangeN 11 60 4).map fun x => -pdf x).reverse).map fun y => y / 3)
    ++ ((arangeN 11 60 2).map fun x => pdf x)

/-- Line 265: `w = -w / max(w)`, the normalized spike template. -/
def spikeTemplate (pdf : ℚ → ℚ) : List ℚ :=
  (templateRaw pdf).map fun y => -y / pymax (templateRaw pdf)

/-- Monadic map over `Except`: runs `f` left to right and fails on the
first error, as a Python `for` loop of fallible calls does. -/
def mapExcept {α β : Type} (f : α → Except PyErr β) : List α → Except PyErr (List β)
  | [] => .ok []
  | a :: l => do
    let b ← f a
    let bs ← mapExcept f l
    .ok (b :: bs)

/-- `KwikIO.read_analogsignal` (lines 166-199).  Looks up the recording's
attribute set; on the lazy branch returns an empty signal carrying
`lazy_shape = attrs["shape"]` (line 186), on the eager branch wraps row
`channel_index` of the 2-D `data` array (line 188).  The free-form
`annotate(info=...)` call adds no modelled field. -/
def read_analogsignal (lazy : Bool) (kwd : KwdFile) (channel_index dataset : ℕ) :
    Except PyErr AnalogSignalM :=
  match kwd.recordings[dataset]? with
  | none => .error .keyError
  | some r =>
    if lazy then
      .ok { data := []
            units := "V"
            sampling_rate := r.attrs.sample_rate
            t_start := r.attrs.start_time
            channel_index := channel_index
            lazy_shape := some r.attrs.shape }
    else
      match r.data[channel_index]? with
      | none => .error .indexError
      | some row =>
        .ok { data := row
              units := "V"
              sampling_rate := r.attrs.sample_rate
              t_start := r.attrs.start_time
              channel_index := channel_index
              lazy_shape := none }

/-- `n = 1000` epochs drawn by `read_stimulus` (line 209). -/
def stimulusN : ℕ := 1000

/-- `KwikIO.read_stimulus` (lines 201-222).  Lazy: the fresh empty
`EpochArray` is returned untouched.  Eager: evaluates the module-global
name `timevect` (a `NameError` when unbound), draws 1000 onset times by
fancy-indexing `timevect` at `(rand(n) * timevect.size).astype("i")`
(for draws in `[0, 1)` C truncation coincides with `Int.floor`; an
out-of-range index is an `IndexError`), sets every duration to 500 (ms)
and labels each epoch `"TriggerA"` when an independent draw exceeds 0.6
(`3/5` in ℚ), else `"TriggerB"`.  `randT` and `randL` are the two
uniform draw streams in source order. -/
def read_stimulus (env : PyEnv) (randT randL : ℕ → ℚ) (lazy : Bool) :
    Except PyErr EpochArrayM :=
  if lazy then
    .ok { times := [], durations := [], labels := [] }
  else
    match env.timevect with
    | none => .error .nameError
    | some tv =>
      if _h : ∀ i < stimulusN, (⌊randT i * tv.length⌋).toNat < tv.length then
        .ok { times := (List.range stimulusN).map fun i =>
                tv.getD (⌊randT i * tv.length⌋).toNat 0
              durations := List.replicate stimulusN 500
              labels := (List.range stimulusN).map fun i =>
                if randL i > 3/5 then "TriggerA" else "TriggerB" }
      else .error .indexError

/-- `num_spike_by_spiketrain = 40` (line 240). -/
def spikesPerTrain : ℕ := 40

/-- `KwikIO.read_spiketrain` (lines 224-279).  Re-raises the saved scipy
`ImportError` when `HAVE_SCIPY` is false (lines 237-238).  Eager times
are `rand(40) * segment_duration + t_start` (lines 246-247); the lazy
branch leaves `times` empty and records `lazy_shape = (40,)` (line 257).
The template `w` is synthesized in both modes (lines 262-265); only the
eager branch tiles it to shape `(40, 1, len w)` and perturbs each copy
by `randn/6 + 1` (lines 270-271), then sets `sampling_rate = 10000` Hz
and `left_sweep = 1.5` s.  `randU`/`randG` are the uniform and gaussian
draw streams; the source's unused `cascade` parameter is dropped. -/
def read_spiketrain (env : PyEnv) (randU randG : ℕ → ℚ)
    (lazy : Bool := false) (segment_duration : ℚ := 15) (t_start : ℚ := -1)
    (channel_index : ℕ := 0) : Except PyErr SpikeTrainM :=
  if ¬ env.haveScipy then .error .importError
  else
    let w := spikeTemplate env.nctPdf
    .ok { times :=
            if lazy then []
            else (List.range spikesPerTrain).map fun i =>
              randU i * segment_duration + t_start
          t_start := t_start
          t_stop := t_start + segment_duration
          lazy_shape := if lazy then some spikesPerTrain else none
          waveforms :=
            if lazy then none
            else some ((List.range spikesPerTrain).map fun i =>
              [(List.range w.length).map fun j =>
                w.getD j 0 * (randG (i * w.length + j) / 6 + 1)])
          sampling_rate := if lazy then none else some 10000
          left_sweep := if lazy then none else some (3/2)
          channel_index := channel_index }

/-- `num_spiketrain_by_channel = 3` (line 148). -/
def spiketrainsPerChannel : ℕ := 3

/-- `KwikIO.read_segment` (lines 121-164).  The two `h5py.File` opens are
out-of-scope collaborators; `kwd` is the opened raw container.  Reads the
channel count from `data.shape[1]` and the attribute set, then, when
`cascade` is set: one `read_analogsignal` per channel, three
`read_spiketrain` per channel (spike-train call number `3*i + k` gets the
draw streams `spikeU (3*i+k)` / `spikeG (3*i+k)`), one `read_stimulus`,
and `duration = ((arange(0, shape) + start_time) / sample_rate).max()`
(`ValueError` when `shape` is 0, since `.max()` of an empty array
raises).  When `cascade` is unset the fresh empty segment is returned
directly. -/
def read_segment (env : PyEnv) (kwd : KwdFile)
    (spikeU spikeG : ℕ → ℕ → ℚ) (stimT stimL : ℕ → ℚ)
    (lazy : Bool := false) (cascade : Bool := true) (dataset : ℕ := 0) :
    Except PyErr SegmentM :=
  match kwd.recordings[dataset]? with
  | none => .error .keyError
  | some r =>
    if cascade then do
      let anas ← mapExcept
        (fun i => read_analogsignal lazy kwd i dataset)
        (List.range r.numChannels)
      let sptrss ← mapExcept
        (fun i => mapExcept
          (fun k => read_spiketrain env
              (spikeU (spiketrainsPerChannel * i + k))
              (spikeG (spiketrainsPerChannel * i + k))
              lazy 15 (-1) i)
          (List.range spiketrainsPerChannel))
        (List.range r.numChannels)
      let epo ← read_stimulus env stimT stimL lazy
      if r.attrs.shape = 0 then .error .valueError
      else
        .ok { analogsignals := anas
              spiketrains := sptrss.flatten
              epocharrays := [epo]
              duration := some (pymax ((List.range r.attrs.shape).map fun (i : ℕ) =>
                ((i : ℚ) + r.attrs.start_time) / r.attrs.sample_rate)) }
    else
      .ok { analogsignals := [], spiketrains := [], epocharrays := [], duration := none }

/-! Named result records, one per branch of the read operations: each is
definitionally the record the corresponding branch returns, so the
equation lemmas below are provable by unfolding. -/

/-- Result of the lazy branch of `read_analogsignal` (lines 178-186). -/
def anaLazy (r : Recording) (ci : ℕ) : AnalogSignalM :=
  ⟨[], "V", r.attrs.sample_rate, r.attrs.start_time, ci, some r.attrs.shape⟩

/-- Result of the eager branch of `read_analogsignal` (lines 188-194). -/
def anaEager (r : Recording) (ci : ℕ) : AnalogSignalM :=
  ⟨r.data.getD ci [], "V", r.attrs.sample_rate, r.attrs.start_time, ci, none⟩

/-- Result of the lazy branch of `read_spiketrain`. -/
def sptrLazy (d t : ℚ) (ci : ℕ) : SpikeTrainM :=
  ⟨[], t, t + d, some spikesPerTrain, none, none, none, ci⟩

/-- The eager waveform tensor of `read_spiketrain`: the template tiled to
shape `(40, 1, len w)` with multiplicative gaussian noise `randG/6 + 1`. -/
def sptrWaveforms (env : PyEnv) (randG : ℕ → ℚ) : List (List (List ℚ)) :=
  (List.range spikesPerTrain).map fun i =>
    [(List.range (spikeTemplate env.nctPdf).length).map fun j =>
      (spikeTemplate env.nctPdf).getD j 0 *
        (randG (i * (spikeTemplate env.nctPdf).length + j) / 6 + 1)]

/-- Result of the eager branch of `read_spiketrain`. -/
def sptrEager (env : PyEnv) (randU randG : ℕ → ℚ) (d t : ℚ) (ci : ℕ) : SpikeTrainM :=
  ⟨(List.range spikesPerTrain).map fun i => randU i * d + t, t, t + d, none,
    some (sptrWaveforms env randG), some 10000, some (3/2), ci⟩

/-- Result of the eager branch of `read_stimulus` when `timevect = tv`
and all 1000 computed indices are in range. -/
def stimEager (tv : List ℚ) (randT randL : ℕ → ℚ) : EpochArrayM :=
  ⟨(List.range stimulusN).map fun i => tv.getD (⌊randT i * tv.length⌋).toNat 0,
    List.replicate stimulusN 500,
    (List.range stimulusN).map fun i =>
      if randL i > 3/5 then "TriggerA" else "TriggerB"⟩

/-! Concrete test fixtures used by the witnesses and by the
counterexample. -/

/-- Environment with scipy available, `timevect` bound to `[0]`, and the
abstract density constantly 1. -/
def exEnv : PyEnv := { haveScipy := true, timevect := some [0], nctPdf := fun _ => 1 }

/-- Environment with scipy unavailable and `timevect` unbound. -/
def exEnvNoScipy : PyEnv :=
  { haveScipy := false, timevect := none, nctPdf := fun _ => 1 }

/-- Uniform draw stream that always returns 0. -/
def zstream : ℕ → ℚ := fun _ => 0

/-- Per-call family of draw streams that always return 0. -/
def zstream2 : ℕ → ℕ → ℚ := fun _ _ => 0

/-- A well-formed recording: 2×2 data array, `shape` attribute 2. -/
def exRec : Recording :=
  { attrs := { sample_rate := 1, start_time := 0, shape := 2 }, data := [[1, 2], [3, 4]] }

/-- Raw container holding just `exRec`. -/
def exKwd : KwdFile := { recordings := [exRec] }

/-- A recording whose `shape` attribute (5) disagrees with the actual
per-channel sample count of its data array (rows of length 3). -/
def badRec : Recording :=
  { attrs := { sample_rate := 1, start_time := 0, shape := 5 }, data := [[0, 0, 0]] }

/-- Raw container holding just `badRec`. -/
def badKwd : KwdFile := { recordings := [badRec] }

/-- The segment a lazy cascaded `read_segment` produces on `exKwd`: two
lazy channel signals, six lazy spike trains, one empty epoch collection,
and duration `max ((i + 0) / 1)` over `i < 2`, kept in unevaluated form
so that the equation with the read is definitional. -/
def exLazySeg : SegmentM :=
  SegmentM.mk [anaLazy exRec 0, anaLazy exRec 1]
    [sptrLazy 15 (-1) 0, sptrLazy 15 (-1) 0, sptrLazy 15 (-1) 0,
      sptrLazy 15 (-1) 1, sptrLazy 15 (-1) 1, sptrLazy 15 (-1) 1]
    [EpochArrayM.mk [] [] []]
    (some (pymax ((List.range exRec.attrs.shape).map fun (i : ℕ) =>
      ((i : ℚ) + exRec.attrs.start_time) / exRec.attrs.sample_rate)))

/-! Helper lemmas about `mapExcept`, `pymax` and list indexing. -/

theorem mapExcept_eq_ok {α β : Type} (f : α → Except PyErr β) (g : α → β) :
    ∀ l : List α, (∀ a ∈ l, f a = .ok (g a)) → mapExcept f l = .ok (l.map g) := by
  intro l
  induction l with
  | nil => intro _; rfl
  | cons a l ih =>
    intro h
    have ha := h a (List.mem_cons_self a l)
    have hl := ih fun b hb => h b (List.mem_cons_of_mem a hb)
    simp only [mapExcept, ha, hl]
    rfl

theorem bind_ok_eq {α β : Type} (a : α) (f : α → Except PyErr β) :
    ((Except.ok a : Except PyErr α) >>= f) = f a := rfl

theorem bind_error_eq {α β : Type} (e : PyErr) (f : α → Except PyErr β) :
    ((Except.error e : Except PyErr α) >>= f) = .error e := rfl

theorem get_map_range {α : Type} (f : ℕ → α) {n i : ℕ}
    (h : i < ((List.range n).map f).length) :
    ((List.range n).map f).get ⟨i, h⟩ = f i := by
  simp [List.get_eq_getElem]

theorem le_foldl_max (xs : List ℚ) : ∀ x : ℚ, x ≤ xs.foldl max x := by
  induction xs with
  | nil => intro x; exact le_refl x
  | cons y ys ih => intro x; exact le_trans (le_max_left x y) (ih (max x y))

theorem mem_le_foldl_max (xs : List ℚ) :
    ∀ x a : ℚ, a ∈ xs → a ≤ xs.foldl max x := by
  induction xs with
  | nil => intro x a h; cases h
  | cons y ys ih =>
    intro x a h
    rcases List.mem_cons.mp h with rfl | h2
    · exact le_trans (le_max_right x a) (le_foldl_max ys (max x a))
    · exact ih (max x y) a h2

theorem le_pymax_of_mem {l : List ℚ} {a : ℚ} (h : a ∈ l) : a ≤ pymax l := by
  match l with
  | x :: xs =>
    rcases List.mem_cons.mp h with rfl | h2
    · exact le_foldl_max xs a
    · exact mem_le_foldl_max xs x a h2

theorem foldl_max_mem (xs : List ℚ) : ∀ x : ℚ, xs.foldl max x ∈ x :: xs := by
  induction xs with
  | nil => intro x; exact List.mem_singleton.mpr rfl
  | cons y ys ih =>
    intro x
    simp only [List.foldl_cons]
    rcases List.mem_cons.mp (ih (max x y)) with h | h
    · rw [h]
      rcases max_choice x y with hx | hx <;> rw [hx] <;> simp
    · exact List.mem_cons_of_mem x (List.mem_cons_of_mem y h)

theorem pymax_mem {l : List ℚ} (h : l ≠ []) : pymax l ∈ l := by
  match l with
  | [] => exact absurd rfl h
  | x :: xs => exact foldl_max_mem xs x

theorem pymax_eq_of {l : List ℚ} {a : ℚ} (h1 : a ∈ l) (h2 : ∀ b ∈ l, b ≤ a) :
    pymax l = a :=
  le_antisymm (h2 _ (pymax_mem (List.ne_nil_of_mem h1))) (le_pymax_of_mem h1)

theorem pymax_append_singleton (l : List ℚ) (hl : l ≠ []) (a : ℚ) :
    pymax (l ++ [a]) = max (pymax l) a := by
  match l with
  | [] => exact absurd rfl hl
  | x :: xs =>
    show List.foldl max x (xs ++ [a]) = max (List.foldl max x xs) a
    rw [List.foldl_append]
    rfl

theorem pymax_map_range_mono (f : ℕ → ℚ) (hf : ∀ i j, i ≤ j → f i ≤ f j) :
    ∀ n : ℕ, 1 ≤ n → pymax ((List.range n).map f) = f (n - 1) := by
  intro n
  induction n with
  | zero => intro h; exact absurd h (by omega)
  | succ n ih =>
    intro _
    rcases Nat.eq_zero_or_pos n with rfl | hn
    · rfl
    · have hne : (List.range n).map f ≠ [] := by
        simp only [ne_eq, List.map_eq_nil_iff, List.range_eq_nil]
        omega
      rw [List.range_succ, List.map_append, List.map_cons, List.map_nil,
        pymax_append_singleton _ hne, ih hn]
      have hc : n + 1 - 1 = n := by omega
      rw [hc]
      exact max_eq_right (hf (n - 1) n (by omega))

theorem flatten_map_range3 {α : Type} (f : ℕ → ℕ → α) :
    ∀ n : ℕ,
      ((List.range n).map fun i => (List.range 3).map fun k => f i k).flatten
        = (List.range (3 * n)).map fun j => f (j / 3) (j % 3) := by
  intro n
  induction n with
  | zero => rfl
  | succ n ih =>
    have hsplit : List.range (3 * (n + 1)) =
        List.range (3 * n) ++ [3 * n, 3 * n + 1, 3 * n + 2] := by
      have h3 : 3 * (n + 1) = 3 * n + 1 + 1 + 1 := by ring
      rw [h3, List.range_succ, List.range_succ, List.range_succ]
      simp [List.append_assoc]
    rw [show List.range (n + 1) = List.range n ++ [n] from List.range_succ n,
      List.map_append, List.flatten_append, ih, hsplit, List.map_append]
    simp only [List.map_cons, List.map_nil, List.flatten_cons, List.flatten_nil,
      List.append_nil]
    have e0 : 3 * n / 3 = n := by omega
    have e0m : 3 * n % 3 = 0 := by omega
    have e1 : (3 * n + 1) / 3 = n := by omega
    have e1m : (3 * n + 1) % 3 = 1 := by omega
    have e2 : (3 * n + 2) / 3 = n := by omega
    have e2m : (3 * n + 2) % 3 = 2 := by omega
    rw [show List.range 3 = [0, 1, 2] from rfl, List.map_cons, List.map_cons,
      List.map_cons, List.map_nil, e0, e0m, e1, e1m, e2, e2m]

/-! Equation lemmas: each read operation, on a given branch and with its
preconditions satisfied, returns the corresponding named record. -/

theorem read_analogsignal_lazy_eq (kwd : KwdFile) (r : Recording) (ci dataset : ℕ)
    (hds : kwd.recordings[dataset]? = some r) :
    read_analogsignal true kwd ci dataset = .ok (anaLazy r ci) := by
  simp [read_analogsignal, hds, anaLazy]

theorem read_analogsignal_eager_eq (kwd : KwdFile) (r : Recording) (ci dataset : ℕ)
    (hds : kwd.recordings[dataset]? = some r) (hci : ci < r.data.length) :
    read_analogsignal false kwd ci dataset = .ok (anaEager r ci) := by
  have hrow : r.data[ci]? = some (r.data.getD ci []) := by
    rw [List.getD_eq_getElem r.data [] hci]
    exact List.getElem?_eq_getElem hci
  simp only [read_analogsignal, hds, Bool.false_eq_true, if_false]
  rw [hrow]
  rfl

theorem read_spiketrain_lazy_eq (env : PyEnv) (randU randG : ℕ → ℚ) (d t : ℚ)
    (ci : ℕ) (hscipy : env.haveScipy = true) :
    read_spiketrain env randU randG true d t ci = .ok (sptrLazy d t ci) := by
  unfold read_spiketrain
  rw [hscipy]
  rfl

theorem read_spiketrain_eager_eq (env : PyEnv) (randU randG : ℕ → ℚ) (d t : ℚ)
    (ci : ℕ) (hscipy : env.haveScipy = true) :
    read_spiketrain env randU randG false d t ci =
      .ok (sptrEager env randU randG d t ci) := by
  unfold read_spiketrain
  rw [hscipy]
  rfl

theorem read_stimulus_eager_eq (env : PyEnv) (randT randL : ℕ → ℚ) (tv : List ℚ)
    (htv : env.timevect = some tv) (htvne : tv ≠ [])
    (hrand : ∀ i, 0 ≤ randT i ∧ randT i < 1) :
    read_stimulus env randT randL false = .ok (stimEager tv randT randL) := by
  have hlen : 0 < tv.length := List.length_pos.mpr htvne
  have hidx : ∀ i < stimulusN, (⌊randT i * tv.length⌋).toNat < tv.length := by
    intro i _
    have h0 : (0:ℚ) ≤ randT i := (hrand i).1
    have h1 : randT i < 1 := (hrand i).2
    have hL : (0:ℚ) < (tv.length : ℚ) := by exact_mod_cast hlen
    have hx : randT i * (tv.length : ℚ) < tv.length :=
      (mul_lt_mul_of_pos_right h1 hL).trans_eq (one_mul _)
    have hfl : ⌊randT i * (tv.length : ℚ)⌋ < (tv.length : ℤ) := by
      apply Int.floor_lt.mpr
      push_cast
      exact hx
    have hnn : (0:ℤ) ≤ ⌊randT i * (tv.length : ℚ)⌋ :=
      Int.floor_nonneg.mpr (mul_nonneg h0 hL.le)
    omega
  simp only [read_stimulus, htv]
  rw [dif_pos hidx]
  rfl

/-! Claim theorems. -/

/-- C2: every eager (`lazy = false`) `read_analogsignal` call on a dataset
whose 2-D raw array has `S` samples per channel (all rows of length `S`)
returns a signal whose sample sequence has length exactly `S`. -/
theorem C2_eager_analogsignal_length (kwd : KwdFile) (r : Recording)
    (channel_index dataset S : ℕ)
    (hds : kwd.recordings[dataset]? = some r)
    (hrect : ∀ row ∈ r.data, row.length = S)
    (hci : channel_index < r.data.length) :
    ∃ a, read_analogsignal false kwd channel_index dataset = .ok a ∧
      a.data.length = S := by
  obtain ⟨row, hrow⟩ : ∃ row, r.data[channel_index]? = some row :=
    ⟨_, List.getElem?_eq_getElem hci⟩
  refine ⟨AnalogSignalM.mk row "V" r.attrs.sample_rate r.attrs.start_time
      channel_index none, ?_, ?_⟩
  · simp [read_analogsignal, hds, hrow]
  · exact hrect row (List.getElem?_mem hrow)

/-- Witness for C2 on the concrete container `exKwd` (2 samples per
channel). -/
theorem C2_witness :
    exKwd.recordings[0]? = some exRec ∧ (0 : ℕ) < exRec.data.length ∧
    ∃ a, read_analogsignal false exKwd 0 0 = .ok a ∧ a.data.length = 2 :=
  ⟨rfl, by decide,
    C2_eager_analogsignal_length exKwd exRec 0 0 2 rfl (by decide) (by decide)⟩

/-- C5: `read_segment` with `cascade = false` returns, for any `lazy`
flag, a segment with no analog signals, no spike trains, no epoch
arrays, and `duration` unset, requiring only the top-level recording
lookup to succeed. -/
theorem C5_cascade_false_empty (env : PyEnv) (kwd : KwdFile) (r : Recording)
    (spikeU spikeG : ℕ → ℕ → ℚ) (stimT stimL : ℕ → ℚ) (lazy : Bool) (dataset : ℕ)
    (hds : kwd.recordings[dataset]? = some r) :
    read_segment env kwd spikeU spikeG stimT stimL lazy false dataset =
      .ok { analogsignals := [], spiketrains := [], epocharrays := [], duration := none } := by
  simp [read_segment, hds]

/-- Witness for C5 at the concrete container `exKwd` with `lazy = true`. -/
theorem C5_witness :
    exKwd.recordings[0]? = some exRec ∧
    read_segment exEnv exKwd zstream2 zstream2 zstream zstream true false 0 =
      .ok { analogsignals := [], spiketrains := [], epocharrays := [], duration := none } :=
  ⟨rfl, C5_cascade_false_empty exEnv exKwd exRec zstream2 zstream2 zstream zstream true 0 rfl⟩

/-- C9: when scipy is unavailable every `read_spiketrain` call (lazy or
eager, any parameters) fails with the re-raised `ImportError`, while
`read_analogsignal` (which never consults scipy) still succeeds on a
valid container; when scipy is available `read_spiketrain` never raises
that error. -/
theorem C9_scipy_gate (env : PyEnv) :
    (env.haveScipy = false →
      ∀ (randU randG : ℕ → ℚ) (lazy : Bool) (d t : ℚ) (ci : ℕ),
        read_spiketrain env randU randG lazy d t ci = .error .importError) ∧
    (env.haveScipy = true →
      ∀ (randU randG : ℕ → ℚ) (lazy : Bool) (d t : ℚ) (ci : ℕ),
        read_spiketrain env randU randG lazy d t ci ≠ .error .importError) ∧
    (∀ (lazy : Bool) (kwd : KwdFile) (ci dataset : ℕ) (r : Recording),
      kwd.recordings[dataset]? = some r → ci < r.data.length →
      ∃ a, read_analogsignal lazy kwd ci dataset = .ok a) := by
  refine ⟨?_, ?_, ?_⟩
  · intro h randU randG lazy d t ci
    simp [read_spiketrain, h]
  · intro h randU randG lazy d t ci
    simp [read_spiketrain, h]
  · intro lazy kwd ci dataset r hds hci
    obtain ⟨row, hrow⟩ : ∃ row, r.data[ci]? = some row :=
      ⟨_, List.getElem?_eq_getElem hci⟩
    cases lazy
    · exact ⟨AnalogSignalM.mk row "V" r.attrs.sample_rate r.attrs.start_time ci none,
        by simp [read_analogsignal, hds, hrow]⟩
    · exact ⟨AnalogSignalM.mk [] "V" r.attrs.sample_rate r.attrs.start_time ci
          (some r.attrs.shape),
        by simp [read_analogsignal, hds]⟩

/-- Witness for C9: the error fires in `exEnvNoScipy`, is absent in
`exEnv`, and `read_analogsignal` succeeds on `exKwd` either way. -/
theorem C9_witness :
    exEnvNoScipy.haveScipy = false ∧
    read_spiketrain exEnvNoScipy zstream zstream false 15 (-1) 0 = .error .importError ∧
    read_spiketrain exEnv zstream zstream false 15 (-1) 0 ≠ .error .importError ∧
    ∃ a, read_analogsignal false exKwd 0 0 = .ok a :=
  ⟨rfl, (C9_scipy_gate exEnvNoScipy).1 rfl zstream zstream false 15 (-1) 0,
    (C9_scipy_gate exEnv).2.1 rfl zstream zstream false 15 (-1) 0,
    (C9_scipy_gate exEnv).2.2 false exKwd 0 0 exRec rfl (by decide)⟩

/-- C10: the eager branch of `read_stimulus` evaluates the module-free
name `timevect` and fails with a `NameError` whenever the surrounding
environment leaves it unbound, while the lazy branch never touches the
name and always returns the empty epoch collection. -/
theorem C10_timevect_free_name (env : PyEnv) (randT randL : ℕ → ℚ) :
    read_stimulus env randT randL true =
      .ok { times := [], durations := [], labels := [] } ∧
    (env.timevect = none →
      read_stimulus env randT randL false = .error .nameError) := by
  constructor
  · rfl
  · intro h
    simp [read_stimulus, h]

/-- Witness for C10 in the environment where `timevect` is unbound. -/
theorem C10_witness :
    exEnvNoScipy.timevect = none ∧
    read_stimulus exEnvNoScipy zstream zstream false = .error .nameError :=
  ⟨rfl, (C10_timevect_free_name exEnvNoScipy zstream zstream).2 rfl⟩

/-- C3 counterexample: on the concrete container `badKwd` (whose `shape`
attribute is 5 while the data rows have length 3) the lazy
`read_analogsignal` carries `lazy_shape = 5`, but the eager read with the
same parameters yields a sample sequence of length 3, so the declared
shape does not equal the eager data length. -/
theorem C3_counterexample :
    (read_analogsignal true badKwd 0 0).toOption.map AnalogSignalM.lazy_shape
      = some (some 5) ∧
    (read_analogsignal false badKwd 0 0).toOption.map (fun a => a.data.length)
      = some 3 ∧
    (read_analogsignal true badKwd 0 0).toOption.map AnalogSignalM.lazy_shape ≠
      (read_analogsignal false badKwd 0 0).toOption.map fun a => some a.data.length := by
  refine ⟨?_, ?_, ?_⟩ <;> decide

/-- C3 (amended): every lazy read returns empty sequences; the lazy spike
train's `lazy_shape` (40) always equals the eager timestamp count; the
lazy stimulus collection is empty; and the lazy channel signal's
`lazy_shape` equals the dataset's `shape` attribute, which equals the
eager sample-sequence length exactly when that attribute agrees with the
actual per-channel row length of the data array. -/
theorem C3_lazy_placeholders (env : PyEnv) (randU randG randT randL : ℕ → ℚ)
    (kwd : KwdFile) (r : Recording) (ci dataset : ℕ) (d t : ℚ)
    (hds : kwd.recordings[dataset]? = some r)
    (hscipy : env.haveScipy = true)
    (hci : ci < r.data.length)
    (hwf : ∀ row ∈ r.data, row.length = r.attrs.shape) :
    (∃ la ea, read_analogsignal true kwd ci dataset = .ok la ∧
      read_analogsignal false kwd ci dataset = .ok ea ∧
      la.data = [] ∧ la.lazy_shape = some r.attrs.shape ∧
      la.lazy_shape = some ea.data.length) ∧
    (∃ ls es, read_spiketrain env randU randG true d t ci = .ok ls ∧
      read_spiketrain env randU randG false d t ci = .ok es ∧
      ls.times = [] ∧ ls.waveforms = none ∧
      ls.lazy_shape = some es.times.length) ∧
    read_stimulus env randT randL true = .ok (EpochArrayM.mk [] [] []) := by
  refine ⟨⟨anaLazy r ci, anaEager r ci,
      read_analogsignal_lazy_eq kwd r ci dataset hds,
      read_analogsignal_eager_eq kwd r ci dataset hds hci, rfl, rfl, ?_⟩,
    ⟨sptrLazy d t ci, sptrEager env randU randG d t ci,
      read_spiketrain_lazy_eq env randU randG d t ci hscipy,
      read_spiketrain_eager_eq env randU randG d t ci hscipy, rfl, rfl, ?_⟩, rfl⟩
  · have hlen : (r.data.getD ci []).length = r.attrs.shape := by
      rw [List.getD_eq_getElem r.data [] hci]
      exact hwf _ (List.getElem_mem hci)
    exact congrArg some hlen.symm
  · simp [sptrLazy, sptrEager, spikesPerTrain]

/-- Witness for C3 (amended) on the well-formed container `exKwd`. -/
theorem C3_witness :
    (∃ la ea, read_analogsignal true exKwd 0 0 = .ok la ∧
      read_analogsignal false exKwd 0 0 = .ok ea ∧
      la.data = [] ∧ la.lazy_shape = some exRec.attrs.shape ∧
      la.lazy_shape = some ea.data.length) ∧
    (∃ ls es, read_spiketrain exEnv zstream zstream true 15 (-1) 0 = .ok ls ∧
      read_spiketrain exEnv zstream zstream false 15 (-1) 0 = .ok es ∧
      ls.times = [] ∧ ls.waveforms = none ∧
      ls.lazy_shape = some es.times.length) ∧
    read_stimulus exEnv zstream zstream true = .ok (EpochArrayM.mk [] [] []) :=
  C3_lazy_placeholders exEnv zstream zstream zstream zstream exKwd exRec 0 0 15 (-1)
    rfl rfl (by decide) (by decide)

/-- C4 counterexample: with `segment_duration = 0` and `t_start = 0` the
eager `read_spiketrain` returns timestamps (all equal to 0), none of
which can lie in the empty half-open interval `[0, 0 + 0)`, so the claim
fails when quantified over every `segment_duration`. -/
theorem C4_counterexample :
    ∃ st, read_spiketrain exEnv zstream zstream false 0 0 0 = .ok st ∧
      ∃ x ∈ st.times, ¬((0 : ℚ) ≤ x ∧ x < 0 + 0) := by
  refine ⟨sptrEager exEnv zstream zstream 0 0 0,
    read_spiketrain_eager_eq exEnv zstream zstream 0 0 0 rfl, 0, ?_, ?_⟩
  · simp [sptrEager, spikesPerTrain, zstream]
  · simp

/-- C4 (amended): every eager `read_spiketrain` call with a positive
`segment_duration` (scipy available, uniform draws in `[0,1)`) yields
exactly 40 timestamps, all in `[t_start, t_start + segment_duration)`,
and a waveform tensor of shape `(40, 1, templateLength)` whose snippet
count equals the timestamp count. -/
theorem C4_eager_spiketrain (env : PyEnv) (randU randG : ℕ → ℚ) (d t : ℚ) (ci : ℕ)
    (hscipy : env.haveScipy = true)
    (hu : ∀ i, 0 ≤ randU i ∧ randU i < 1) (hd : 0 < d) :
    ∃ st ws, read_spiketrain env randU randG false d t ci = .ok st ∧
      st.times.length = 40 ∧
      (∀ x ∈ st.times, t ≤ x ∧ x < t + d) ∧
      st.waveforms = some ws ∧ ws.length = 40 ∧
      (∀ s ∈ ws, s.length = 1 ∧
        ∀ w ∈ s, w.length = (spikeTemplate env.nctPdf).length) ∧
      st.times.length = ws.length := by
  refine ⟨sptrEager env randU randG d t ci, sptrWaveforms env randG,
    read_spiketrain_eager_eq env randU randG d t ci hscipy, ?_, ?_, rfl, ?_, ?_, ?_⟩
  · simp [sptrEager, spikesPerTrain]
  · intro x hx
    simp only [sptrEager, List.mem_map, List.mem_range] at hx
    obtain ⟨i, -, rfl⟩ := hx
    constructor
    · have h0 : 0 ≤ randU i * d := mul_nonneg (hu i).1 hd.le
      linarith
    · have h1 : randU i * d < 1 * d := mul_lt_mul_of_pos_right (hu i).2 hd
      rw [one_mul] at h1
      linarith
  · simp [sptrWaveforms, spikesPerTrain]
  · intro s hs
    simp only [sptrWaveforms, List.mem_map, List.mem_range] at hs
    obtain ⟨i, -, rfl⟩ := hs
    refine ⟨rfl, ?_⟩
    intro w hw
    simp only [List.mem_singleton] at hw
    subst hw
    simp
  · simp [sptrEager, sptrWaveforms, spikesPerTrain]

/-- Witness for C4 with the default parameters `d = 15`, `t = -1`. -/
theorem C4_witness :
    exEnv.haveScipy = true ∧ (0 : ℚ) < 15 ∧
    ∃ st ws, read_spiketrain exEnv zstream zstream false 15 (-1) 0 = .ok st ∧
      st.times.length = 40 ∧
      (∀ x ∈ st.times, -1 ≤ x ∧ x < -1 + 15) ∧
      st.waveforms = some ws ∧ ws.length = 40 ∧
      (∀ s ∈ ws, s.length = 1 ∧
        ∀ w ∈ s, w.length = (spikeTemplate exEnv.nctPdf).length) ∧
      st.times.length = ws.length :=
  ⟨rfl, by norm_num,
    C4_eager_spiketrain exEnv zstream zstream 15 (-1) 0 rfl
      (fun i => ⟨by norm_num [zstream], by norm_num [zstream]⟩) (by norm_num)⟩

/-- C7: every eager `read_stimulus` call (given a bound, nonempty
`timevect` and onset draws in `[0,1)`) returns three parallel sequences
of length 1000, every duration equal to 500 (ms), and label `i` equal to
`"TriggerA"` exactly when the `i`-th label draw exceeds `0.6`; every
lazy call returns three empty sequences. -/
theorem C7_stimulus_epochs (env : PyEnv) (randT randL : ℕ → ℚ) (tv : List ℚ)
    (htv : env.timevect = some tv) (htvne : tv ≠ [])
    (hrand : ∀ i, 0 ≤ randT i ∧ randT i < 1) :
    (∃ e, read_stimulus env randT randL false = .ok e ∧
      e.times.length = 1000 ∧ e.durations.length = 1000 ∧ e.labels.length = 1000 ∧
      (∀ x ∈ e.durations, x = 500) ∧
      (∀ i, ∀ h : i < e.labels.length,
        e.labels.get ⟨i, h⟩ = if randL i > 3/5 then "TriggerA" else "TriggerB")) ∧
    read_stimulus env randT randL true = .ok (EpochArrayM.mk [] [] []) := by
  refine ⟨⟨stimEager tv randT randL,
    read_stimulus_eager_eq env randT randL tv htv htvne hrand, ?_, ?_, ?_, ?_, ?_⟩, rfl⟩
  · simp only [stimEager, List.length_map, List.length_range]
    rfl
  · simp only [stimEager, List.length_replicate]
    rfl
  · simp only [stimEager, List.length_map, List.length_range]
    rfl
  · intro x hx
    exact List.eq_of_mem_replicate hx
  · intro i h
    simp only [stimEager, List.get_eq_getElem, List.getElem_map, List.getElem_range]

/-- Witness for C7 with `timevect = [0]` and constant-zero draws. -/
theorem C7_witness :
    exEnv.timevect = some [0] ∧
    ((∃ e, read_stimulus exEnv zstream zstream false = .ok e ∧
      e.times.length = 1000 ∧ e.durations.length = 1000 ∧ e.labels.length = 1000 ∧
      (∀ x ∈ e.durations, x = 500) ∧
      (∀ i, ∀ h : i < e.labels.length,
        e.labels.get ⟨i, h⟩ = if zstream i > 3/5 then "TriggerA" else "TriggerB")) ∧
    read_stimulus exEnv zstream zstream true = .ok (EpochArrayM.mk [] [] [])) :=
  ⟨rfl, C7_stimulus_epochs exEnv zstream zstream [0] rfl (by decide)
    (fun i => ⟨by norm_num [zstream], by norm_num [zstream]⟩)⟩

/-! Lemmas about the spike template of `read_spiketrain` (lines 262-265). -/

theorem coarse_mem_fine {x : ℚ} (hx : x ∈ arangeN 11 60 4) : x ∈ arangeN 11 60 2 := by
  simp only [arangeN, List.mem_map, List.mem_range] at hx ⊢
  obtain ⟨k, hk, rfl⟩ := hx
  refine ⟨2 * k, by omega, ?_⟩
  congr 1
  omega

theorem eleven_mem_arange2 : (11 : ℚ) ∈ arangeN 11 60 2 := by
  simp only [arangeN, List.mem_map, List.mem_range]
  exact ⟨0, by omega, by norm_num⟩

theorem pdf_mem_templateRaw {pdf : ℚ → ℚ} {x : ℚ} (hx : x ∈ arangeN 11 60 2) :
    pdf x ∈ templateRaw pdf := by
  unfold templateRaw
  exact List.mem_append_right _ (List.mem_map.mpr ⟨x, hx, rfl⟩)

theorem templateRaw_cases {pdf : ℚ → ℚ} {y : ℚ} (hy : y ∈ templateRaw pdf) :
    (∃ x, x ∈ arangeN 11 60 4 ∧ y = (-pdf x) / 3) ∨
    (∃ x, x ∈ arangeN 11 60 2 ∧ y = pdf x) := by
  unfold templateRaw at hy
  rcases List.mem_append.mp hy with h | h
  · obtain ⟨z, hz, rfl⟩ := List.mem_map.mp h
    obtain ⟨x, hx, rfl⟩ := List.mem_map.mp (List.mem_reverse.mp hz)
    exact Or.inl ⟨x, hx, rfl⟩
  · obtain ⟨x, hx, rfl⟩ := List.mem_map.mp h
    exact Or.inr ⟨x, hx, rfl⟩

theorem pymax_templateRaw_pos {pdf : ℚ → ℚ} (hp : ∀ q, 0 < pdf q) :
    0 < pymax (templateRaw pdf) :=
  lt_of_lt_of_le (hp 11) (le_pymax_of_mem (pdf_mem_templateRaw eleven_mem_arange2))

theorem templateRaw_abs_le {pdf : ℚ → ℚ} (hp : ∀ q, 0 < pdf q) :
    ∀ y ∈ templateRaw pdf, |y| ≤ pymax (templateRaw pdf) ∧
      (|y| = pymax (templateRaw pdf) → y = pymax (templateRaw pdf)) := by
  intro y hy
  rcases templateRaw_cases hy with ⟨x, hx, rfl⟩ | ⟨x, hx, rfl⟩
  · have hpx : 0 < pdf x := hp x
    have hle : pdf x ≤ pymax (templateRaw pdf) :=
      le_pymax_of_mem (pdf_mem_templateRaw (coarse_mem_fine hx))
    have habs : |(-pdf x) / 3| = pdf x / 3 := by
      rw [abs_div, abs_neg, abs_of_pos hpx]
      norm_num
    constructor
    · rw [habs]
      linarith
    · intro habs2
      rw [habs] at habs2
      linarith
  · have hpx : 0 < pdf x := hp x
    have hle : pdf x ≤ pymax (templateRaw pdf) :=
      le_pymax_of_mem (pdf_mem_templateRaw hx)
    rw [abs_of_pos hpx]
    exact ⟨hle, fun h => h⟩

theorem pymax_abs_templateRaw {pdf : ℚ → ℚ} (hp : ∀ q, 0 < pdf q) :
    pymax ((templateRaw pdf).map fun y => |y|) = pymax (templateRaw pdf) := by
  have hne : templateRaw pdf ≠ [] :=
    List.ne_nil_of_mem (pdf_mem_templateRaw eleven_mem_arange2)
  apply pymax_eq_of
  · exact List.mem_map.mpr
      ⟨pymax (templateRaw pdf), pymax_mem hne,
        abs_of_pos (pymax_templateRaw_pos hp)⟩
  · intro b hb
    obtain ⟨y, hy, rfl⟩ := List.mem_map.mp hb
    exact (templateRaw_abs_le hp y hy).1

theorem foldl_max_map_div (c : ℚ) (hc : 0 < c) (xs : List ℚ) :
    ∀ x, ((xs.map fun y => y / c).foldl max (x / c)) = xs.foldl max x / c := by
  induction xs with
  | nil => intro x; rfl
  | cons y ys ih =>
    intro x
    simp only [List.map_cons, List.foldl_cons]
    rw [max_div_div_right hc.le x y]
    exact ih (max x y)

theorem pymax_map_div (l : List ℚ) (hl : l ≠ []) (c : ℚ) (hc : 0 < c) :
    pymax (l.map fun y => y / c) = pymax l / c := by
  match l with
  | [] => exact absurd rfl hl
  | x :: xs => exact foldl_max_map_div c hc xs x

/-- C8: for every `read_spiketrain` call (the template is synthesized in
both lazy and eager mode), assuming the sampled density is strictly
positive, the normalized template `w` satisfies `max |w| = 1`, and every
entry of maximal absolute magnitude equals exactly `-1`. -/
theorem C8_template_normalization (env : PyEnv) (hp : ∀ q, 0 < env.nctPdf q) :
    pymax ((spikeTemplate env.nctPdf).map fun y => |y|) = 1 ∧
    ∀ y ∈ spikeTemplate env.nctPdf,
      |y| = pymax ((spikeTemplate env.nctPdf).map fun y => |y|) → y = -1 := by
  have hM : 0 < pymax (templateRaw env.nctPdf) := pymax_templateRaw_pos hp
  have hne : templateRaw env.nctPdf ≠ [] :=
    List.ne_nil_of_mem (pdf_mem_templateRaw eleven_mem_arange2)
  have habsne : (templateRaw env.nctPdf).map (fun y => |y|) ≠ [] := by
    simp only [ne_eq, List.map_eq_nil_iff]
    exact hne
  have hmapeq : (spikeTemplate env.nctPdf).map (fun y => |y|)
      = ((templateRaw env.nctPdf).map fun y => |y|).map
          fun b => b / pymax (templateRaw env.nctPdf) := by
    simp only [spikeTemplate, List.map_map]
    apply List.map_congr_left
    intro y _
    simp only [Function.comp_apply]
    rw [abs_div, abs_neg, abs_of_pos hM]
  have h1 : pymax ((spikeTemplate env.nctPdf).map fun y => |y|) = 1 := by
    rw [hmapeq, pymax_map_div _ habsne _ hM, pymax_abs_templateRaw hp]
    exact div_self hM.ne'
  refine ⟨h1, ?_⟩
  intro y hy hyabs
  rw [h1] at hyabs
  simp only [spikeTemplate, List.mem_map] at hy
  obtain ⟨y0, hy0, rfl⟩ := hy
  rw [abs_div, abs_neg, abs_of_pos hM] at hyabs
  have h2 : |y0| = pymax (templateRaw env.nctPdf) :=
    (div_eq_one_iff_eq hM.ne').mp hyabs
  have h3 : y0 = pymax (templateRaw env.nctPdf) :=
    (templateRaw_abs_le hp y0 hy0).2 h2
  rw [h3, neg_div, div_self hM.ne']

/-- Witness for C8 with the constant density 1 of `exEnv`. -/
theorem C8_witness :
    (∀ q, 0 < exEnv.nctPdf q) ∧
    pymax ((spikeTemplate exEnv.nctPdf).map fun y => |y|) = 1 ∧
    ∀ y ∈ spikeTemplate exEnv.nctPdf,
      |y| = pymax ((spikeTemplate exEnv.nctPdf).map fun y => |y|) → y = -1 :=
  ⟨fun q => by norm_num [exEnv],
    (C8_template_normalization exEnv fun q => by norm_num [exEnv]).1,
    (C8_template_normalization exEnv fun q => by norm_num [exEnv]).2⟩

/-- Full evaluation of an eager cascaded `read_segment` under the
preconditions that make every nested read succeed: scipy available, the
global `timevect` bound and nonempty, onset draws in `[0,1)`, the
channel count (dimension 1 of the data array) not exceeding the row
count, and a nonzero `shape` attribute. -/
theorem read_segment_cascade_eq (env : PyEnv) (kwd : KwdFile) (r : Recording)
    (spikeU spikeG : ℕ → ℕ → ℚ) (stimT stimL : ℕ → ℚ) (dataset : ℕ) (tv : List ℚ)
    (hds : kwd.recordings[dataset]? = some r)
    (hscipy : env.haveScipy = true)
    (htv : env.timevect = some tv) (htvne : tv ≠ [])
    (hsT : ∀ i, 0 ≤ stimT i ∧ stimT i < 1)
    (hch : r.numChannels ≤ r.data.length)
    (hshape : r.attrs.shape ≠ 0) :
    read_segment env kwd spikeU spikeG stimT stimL false true dataset =
      .ok (SegmentM.mk
        ((List.range r.numChannels).map fun i => anaEager r i)
        ((List.range (3 * r.numChannels)).map fun j =>
          sptrEager env (spikeU j) (spikeG j) 15 (-1) (j / 3))
        [stimEager tv stimT stimL]
        (some (pymax ((List.range r.attrs.shape).map fun (i : ℕ) =>
          ((i : ℚ) + r.attrs.start_time) / r.attrs.sample_rate)))) := by
  have hana : mapExcept (fun i => read_analogsignal false kwd i dataset)
      (List.range r.numChannels)
      = .ok ((List.range r.numChannels).map fun i => anaEager r i) := by
    apply mapExcept_eq_ok
    intro i hi
    exact read_analogsignal_eager_eq kwd r i dataset hds
      (lt_of_lt_of_le (List.mem_range.mp hi) hch)
  have hsptr : mapExcept (fun i => mapExcept
        (fun k => read_spiketrain env (spikeU (spiketrainsPerChannel * i + k))
          (spikeG (spiketrainsPerChannel * i + k)) false 15 (-1) i)
        (List.range spiketrainsPerChannel)) (List.range r.numChannels)
      = .ok ((List.range r.numChannels).map fun i =>
          (List.range 3).map fun k =>
            sptrEager env (spikeU (3 * i + k)) (spikeG (3 * i + k)) 15 (-1) i) := by
    apply mapExcept_eq_ok
    intro i _
    apply mapExcept_eq_ok
    intro k _
    exact read_spiketrain_eager_eq env _ _ 15 (-1) i hscipy
  have hstim := read_stimulus_eager_eq env stimT stimL tv htv htvne hsT
  simp only [read_segment, hds, if_true, hana, hsptr, hstim, bind_ok_eq]
  rw [if_neg hshape]
  simp only [Except.ok.injEq, SegmentM.mk.injEq, true_and, and_true]
  rw [flatten_map_range3
    (fun i k => sptrEager env (spikeU (3 * i + k)) (spikeG (3 * i + k)) 15 (-1) i)
    r.numChannels]
  apply List.map_congr_left
  intro j _
  rw [Nat.div_add_mod j 3]

/-- C1: an eager cascaded `read_segment` (all nested reads succeeding)
returns a segment with exactly `numChannels` analog signals in
channel-index order, exactly `3 * numChannels` spike trains whose
`channel_index` annotation equals the channel they were generated for
(spike train `j` belongs to channel `j / 3`), and exactly one stimulus
epoch collection. -/
theorem C1_cascaded_session (env : PyEnv) (kwd : KwdFile) (r : Recording)
    (spikeU spikeG : ℕ → ℕ → ℚ) (stimT stimL : ℕ → ℚ) (dataset : ℕ) (tv : List ℚ)
    (hds : kwd.recordings[dataset]? = some r)
    (hscipy : env.haveScipy = true)
    (htv : env.timevect = some tv) (htvne : tv ≠ [])
    (hsT : ∀ i, 0 ≤ stimT i ∧ stimT i < 1)
    (hch : r.numChannels ≤ r.data.length)
    (hshape : r.attrs.shape ≠ 0) :
    ∃ seg, read_segment env kwd spikeU spikeG stimT stimL false true dataset
        = .ok seg ∧
      seg.analogsignals.length = r.numChannels ∧
      (∀ i, ∀ h : i < seg.analogsignals.length,
        (seg.analogsignals.get ⟨i, h⟩).channel_index = i) ∧
      seg.spiketrains.length = 3 * r.numChannels ∧
      (∀ j, ∀ h : j < seg.spiketrains.length,
        (seg.spiketrains.get ⟨j, h⟩).channel_index = j / 3) ∧
      seg.epocharrays.length = 1 := by
  refine ⟨_, read_segment_cascade_eq env kwd r spikeU spikeG stimT stimL dataset tv
    hds hscipy htv htvne hsT hch hshape, ?_, ?_, ?_, ?_, rfl⟩
  · simp
  · intro i h
    simp only [List.get_eq_getElem, List.getElem_map, List.getElem_range, anaEager]
  · simp
  · intro j h
    simp only [List.get_eq_getElem, List.getElem_map, List.getElem_range, sptrEager]

/-- Witness for C1 on the 2-channel container `exKwd`. -/
theorem C1_witness :
    exEnv.haveScipy = true ∧ exKwd.recordings[0]? = some exRec ∧
    exRec.numChannels = 2 ∧
    ∃ seg, read_segment exEnv exKwd zstream2 zstream2 zstream zstream false true 0
        = .ok seg ∧
      seg.analogsignals.length = exRec.numChannels ∧
      (∀ i, ∀ h : i < seg.analogsignals.length,
        (seg.analogsignals.get ⟨i, h⟩).channel_index = i) ∧
      seg.spiketrains.length = 3 * exRec.numChannels ∧
      (∀ j, ∀ h : j < seg.spiketrains.length,
        (seg.spiketrains.get ⟨j, h⟩).channel_index = j / 3) ∧
      seg.epocharrays.length = 1 :=
  ⟨rfl, rfl, rfl,
    C1_cascaded_session exEnv exKwd exRec zstream2 zstream2 zstream zstream 0 [0]
      rfl rfl rfl (by decide)
      (fun i => ⟨by norm_num [zstream], by norm_num [zstream]⟩)
      (by decide) (by decide)⟩

/-- C6: every cascaded `read_segment` (lazy or eager) that returns a
session over a dataset with `shape` attribute `N ≥ 1`, start offset `s`
and sample rate `r > 0` sets its duration to `(N - 1 + s) / r`, the
maximum of `(i + s) / r` over `i < N`. -/
theorem C6_session_duration (env : PyEnv) (kwd : KwdFile) (r : Recording)
    (spikeU spikeG : ℕ → ℕ → ℚ) (stimT stimL : ℕ → ℚ) (dataset : ℕ) (lazy : Bool)
    (seg : SegmentM)
    (hds : kwd.recordings[dataset]? = some r)
    (hN : 1 ≤ r.attrs.shape)
    (hr : 0 < r.attrs.sample_rate)
    (hread : read_segment env kwd spikeU spikeG stimT stimL lazy true dataset
      = .ok seg) :
    seg.duration = some (((r.attrs.shape : ℚ) - 1 + r.attrs.start_time)
      / r.attrs.sample_rate) := by
  simp only [read_segment, hds, if_true] at hread
  rcases hana : mapExcept (fun i => read_analogsignal lazy kwd i dataset)
      (List.range r.numChannels) with e | anas
  · rw [hana, bind_error_eq] at hread
    exact absurd hread (by simp)
  · rw [hana, bind_ok_eq] at hread
    rcases hsp : mapExcept (fun i => mapExcept
        (fun k => read_spiketrain env (spikeU (spiketrainsPerChannel * i + k))
          (spikeG (spiketrainsPerChannel * i + k)) lazy 15 (-1) i)
        (List.range spiketrainsPerChannel)) (List.range r.numChannels) with e | sp
    · rw [hsp, bind_error_eq] at hread
      exact absurd hread (by simp)
    · rw [hsp, bind_ok_eq] at hread
      rcases hst : read_stimulus env stimT stimL lazy with e | epo
      · rw [hst, bind_error_eq] at hread
        exact absurd hread (by simp)
      · rw [hst, bind_ok_eq] at hread
        rw [if_neg (show ¬ r.attrs.shape = 0 by omega)] at hread
        injection hread with h
        subst h
        have hmono : ∀ i j : ℕ, i ≤ j →
            ((i : ℚ) + r.attrs.start_time) / r.attrs.sample_rate
              ≤ ((j : ℚ) + r.attrs.start_time) / r.attrs.sample_rate := by
          intro i j hij
          have hij2 : (i : ℚ) ≤ (j : ℚ) := Nat.cast_le.mpr hij
          gcongr
        show some _ = some _
        rw [pymax_map_range_mono _ hmono r.attrs.shape hN, Nat.cast_sub hN,
          Nat.cast_one]

/-- Witness for C6 on a lazy cascaded read of `exKwd` (`shape = 2`,
`s = 0`, `r = 1`): duration is `(2 - 1 + 0) / 1`. -/
theorem C6_witness :
    exKwd.recordings[0]? = some exRec ∧ 1 ≤ exRec.attrs.shape ∧
    (0 : ℚ) < exRec.attrs.sample_rate ∧
    read_segment exEnv exKwd zstream2 zstream2 zstream zstream true true 0
      = .ok exLazySeg ∧
    exLazySeg.duration = some (((exRec.attrs.shape : ℚ) - 1 + exRec.attrs.start_time)
      / exRec.attrs.sample_rate) :=
  ⟨rfl, by decide, by norm_num [exRec], rfl,
    C6_session_duration exEnv exKwd exRec zstream2 zstream2 zstream zstream 0 true
      exLazySeg rfl (by decide) (by norm_num [exRec]) rfl⟩

end KwikIO
